import Mathlib

set_option autoImplicit false

/-! Shallow embedding of `ddb_model/base.py`: the sharded secondary-index read
path (IndexMapping enrichment, Barrier fan-out, continuation-token codec, and
`QueryMixin.query_shards`).  Python dicts are modelled as insertion-ordered
association lists: lookup returns the first binding, updating an existing key
replaces it in place, and a fresh key is appended — exactly the observable
behaviour of a `dict` with unique keys.  Python `==` on dicts is extensional
equality of bindings.  Uncaught Python exceptions are `Except.error`. -/

namespace DdbModel

/-- A Python attribute value as it occurs in entities and cursors. -/
inductive Val : Type where
  | str : String → Val
  | nat : Nat → Val
  | none : Val
deriving DecidableEq, Repr

/-- Python `dict` as an insertion-ordered association list.  Every dict the
source builds has unique keys; the operations below preserve that. -/
abbrev PyDict (κ α : Type) := List (κ × α)

namespace PyDict

variable {κ α : Type} [DecidableEq κ]

/-- `d[k]` / `d.get(k)`: the first binding of `k`. -/
def get? : PyDict κ α → κ → Option α
  | [], _ => Option.none
  | p :: rest, k => if p.1 = k then some p.2 else get? rest k

/-- `d.get(k, v)`. -/
def getD (d : PyDict κ α) (k : κ) (v : α) : α := (d.get? k).getD v

/-- `k in d`. -/
def containsKey (d : PyDict κ α) (k : κ) : Bool := (d.get? k).isSome

/-- `d[k] = v`: replace in place when the key is present, append when fresh. -/
def insert (d : PyDict κ α) (k : κ) (v : α) : PyDict κ α :=
  if d.containsKey k then d.map (fun p => if p.1 = k then (k, v) else p)
  else d ++ [(k, v)]

/-- `d.pop(k, None)` as far as the remaining dict is concerned. -/
def erase (d : PyDict κ α) (k : κ) : PyDict κ α :=
  d.filter (fun p => !(decide (p.1 = k)))

/-- `list(d.keys())`. -/
def keyList (d : PyDict κ α) : List κ := d.map Prod.fst

/-- Python `==` on dicts: extensional equality of bindings. -/
def eqD [DecidableEq α] (d₁ d₂ : PyDict κ α) : Bool :=
  (keyList d₁ ++ keyList d₂).all (fun k => decide (get? d₁ k = get? d₂ k))

@[simp] theorem get?_nil (k : κ) : get? ([] : PyDict κ α) k = Option.none := rfl

theorem get?_cons (p : κ × α) (d : PyDict κ α) (k : κ) :
    get? (p :: d) k = if p.1 = k then some p.2 else get? d k := rfl

theorem get?_eq_none_of_not_mem {d : PyDict κ α} {k : κ} (h : k ∉ d.keyList) :
    d.get? k = Option.none := by
  induction d with
  | nil => rfl
  | cons p rest ih =>
    simp only [keyList, List.map_cons, List.mem_cons] at h
    push_neg at h
    simp only [get?, Ne.symm h.1, if_false]
    exact ih h.2

theorem mem_keyList_of_get?_eq_some {d : PyDict κ α} {k : κ} {v : α}
    (h : d.get? k = some v) : k ∈ d.keyList := by
  by_contra hk
  rw [get?_eq_none_of_not_mem hk] at h
  exact Option.noConfusion h

theorem get?_append (d₁ d₂ : PyDict κ α) (k : κ) :
    get? (d₁ ++ d₂) k = (get? d₁ k).orElse (fun _ => get? d₂ k) := by
  induction d₁ with
  | nil => simp [get?]
  | cons p rest ih =>
    by_cases h : p.1 = k
    · simp [get?, h]
    · simp [get?, h, ih]

theorem get?_map_replace_self {d : PyDict κ α} {k : κ} (v : α)
    (hc : d.containsKey k = true) :
    get? (d.map (fun p => if p.1 = k then (k, v) else p)) k = some v := by
  induction d with
  | nil => simp [containsKey, get?] at hc
  | cons p rest ih =>
    by_cases h : p.1 = k
    · simp [get?, h]
    · simp only [containsKey, get?, h, if_false] at hc
      simp only [List.map_cons, h, if_false]
      rw [get?_cons]
      simp only [h, if_false]
      exact ih hc

theorem get?_map_replace_ne (d : PyDict κ α) (k k' : κ) (v : α) (h : k' ≠ k) :
    get? (d.map (fun p => if p.1 = k then (k, v) else p)) k' = get? d k' := by
  induction d with
  | nil => rfl
  | cons p rest ih =>
    by_cases hp : p.1 = k
    · simp only [List.map_cons, hp, if_true]
      rw [get?_cons, get?_cons]
      simp only [Ne.symm h, if_false, hp]
      exact ih
    · simp only [List.map_cons, hp, if_false]
      rw [get?_cons, get?_cons]
      by_cases hk' : p.1 = k'
      · simp [hk']
      · simp only [hk', if_false]
        exact ih

theorem get?_insert_self (d : PyDict κ α) (k : κ) (v : α) :
    get? (d.insert k v) k = some v := by
  unfold insert
  by_cases hc : d.containsKey k = true
  · rw [if_pos hc]
    exact get?_map_replace_self v hc
  · rw [if_neg hc]
    rw [get?_append]
    have : d.get? k = Option.none := by
      unfold containsKey at hc
      exact Option.not_isSome_iff_eq_none.mp hc
    simp [this, get?]

theorem get?_insert_ne (d : PyDict κ α) (k k' : κ) (v : α) (h : k' ≠ k) :
    get? (d.insert k v) k' = get? d k' := by
  unfold insert
  by_cases hc : d.containsKey k = true
  · rw [if_pos hc]
    exact get?_map_replace_ne d k k' v h
  · rw [if_neg hc]
    rw [get?_append]
    cases hd : d.get? k' with
    | none => simp [get?, Ne.symm h]
    | some v' => simp

theorem erase_cons (p : κ × α) (d : PyDict κ α) (k : κ) :
    erase (p :: d) k = if p.1 = k then erase d k else p :: erase d k := by
  by_cases h : p.1 = k <;> simp [erase, List.filter_cons, h]

theorem get?_erase_self (d : PyDict κ α) (k : κ) :
    get? (erase d k) k = Option.none := by
  induction d with
  | nil => rfl
  | cons p rest ih =>
    rw [erase_cons]
    by_cases h : p.1 = k
    · rw [if_pos h]; exact ih
    · rw [if_neg h, get?_cons]
      simp only [h, if_false]
      exact ih

theorem get?_erase_ne (d : PyDict κ α) (k k' : κ) (h : k' ≠ k) :
    get? (erase d k) k' = get? d k' := by
  induction d with
  | nil => rfl
  | cons p rest ih =>
    rw [erase_cons]
    by_cases hp : p.1 = k
    · rw [if_pos hp, get?_cons]
      have : p.1 ≠ k' := by rw [hp]; exact Ne.symm h
      simp only [this, if_false]
      exact ih
    · rw [if_neg hp, get?_cons, get?_cons]
      by_cases hk' : p.1 = k'
      · simp [hk']
      · simp only [hk', if_false]
        exact ih

theorem get?_isSome_of_mem_keyList {d : PyDict κ α} {k : κ} (h : k ∈ d.keyList) :
    (d.get? k).isSome = true := by
  induction d with
  | nil => exact absurd h (List.not_mem_nil k)
  | cons p rest ih =>
    rw [get?_cons]
    by_cases hp : p.1 = k
    · rw [if_pos hp]; rfl
    · rw [if_neg hp]
      apply ih
      rcases List.mem_cons.mp h with hk | hk
      · exact absurd hk.symm hp
      · exact hk

theorem get?_map_pair {β : Type} (l : List κ) (f : κ → β) (k : κ) :
    get? (l.map (fun s => (s, f s))) k = if k ∈ l then some (f k) else Option.none := by
  induction l with
  | nil => simp
  | cons s rest ih =>
    rw [List.map_cons, get?_cons]
    by_cases hs : s = k
    · subst hs
      simp
    · rw [if_neg hs, ih]
      by_cases hk : k ∈ rest
      · rw [if_pos hk, if_pos (List.mem_cons_of_mem s hk)]
      · rw [if_neg hk, if_neg (fun hmem =>
          (List.mem_cons.mp hmem).elim (fun h => hs h.symm) hk)]

theorem forall_ne_of_containsKey_false {d : PyDict κ α} {k : κ}
    (h : d.containsKey k = false) : ∀ p ∈ d, p.1 ≠ k := by
  intro p hp hpk
  have : k ∈ d.keyList := hpk ▸ List.mem_map_of_mem Prod.fst hp
  rw [containsKey, get?_isSome_of_mem_keyList this] at h
  exact Bool.noConfusion h

theorem insert_fresh (d : PyDict κ α) (k : κ) (v : α)
    (h : d.containsKey k = false) : d.insert k v = d ++ [(k, v)] := by
  unfold insert
  rw [if_neg (by rw [h]; exact Bool.noConfusion)]

theorem insert_append_same (R : PyDict κ α) (k : κ) (x v : α)
    (h : R.containsKey k = false) :
    PyDict.insert (R ++ [(k, x)]) k v = R ++ [(k, v)] := by
  have hc : PyDict.containsKey (R ++ [(k, x)]) k = true := by
    unfold containsKey
    rw [get?_append]
    have : R.get? k = Option.none := by
      unfold containsKey at h
      exact Option.not_isSome_iff_eq_none.mp (by rw [h]; exact Bool.noConfusion)
    simp [this, get?]
  unfold insert
  rw [if_pos hc, List.map_append]
  congr 1
  · calc R.map (fun p => if p.1 = k then (k, v) else p)
        = R.map id := List.map_congr_left (fun p hp => by
          rw [if_neg (forall_ne_of_containsKey_false h p hp)]
          rfl)
      _ = R := List.map_id R
  · simp

theorem eqD_iff_forall_get? [DecidableEq α] (d₁ d₂ : PyDict κ α) :
    eqD d₁ d₂ = true ↔ ∀ k, get? d₁ k = get? d₂ k := by
  constructor
  · intro h k
    by_cases hk : k ∈ d₁.keyList ++ d₂.keyList
    · have := List.all_eq_true.mp h k hk
      exact of_decide_eq_true this
    · rw [List.mem_append] at hk
      push_neg at hk
      rw [get?_eq_none_of_not_mem hk.1, get?_eq_none_of_not_mem hk.2]
  · intro h
    apply List.all_eq_true.mpr
    intro k _
    exact decide_eq_true (h k)

end PyDict

/-- A DynamoDB `LastEvaluatedKey` / `ExclusiveStartKey`: a Python dict mapping
attribute names to values.  The empty dict is falsy in Python and marks an
exhausted shard. -/
abbrev Cursor := PyDict String Val

/-- A DynamoDB item / a logical entity: a Python dict of attributes. -/
abbrev Entity := PyDict String Val

abbrev Item := Entity

/-- One shard's entry of the Barrier `results` dict.  `base.py` reads such an
entry only through `.get("Items", [])` and `.get("LastEvaluatedKey", {})`, so
the response dict is modelled by exactly those two fields; the `{}` placeholder
that `threaded_shell` stores up front (and leaves behind on failure) is
`ShardResult.empty`. -/
structure ShardResult where
  items : List Item
  lastEvaluatedKey : Cursor
deriving DecidableEq, Repr

def ShardResult.empty : ShardResult := ⟨[], []⟩

/-- An uncaught Python exception of the read path. -/
inductive Err : Type where
  /-- `base64`/`zlib`/`pickle` failure on a corrupted token string. -/
  | unpicklingError : Err
  /-- `exclusive_start_keys[shard_id]` on a shard id missing from the map. -/
  | keyError : Nat → Err
  /-- `item[sort_key_name]` on an item lacking the sort-key attribute. -/
  | keyErrorAttr : String → Err
  /-- `.split` on a sort-key value that is not a string. -/
  | attributeError : Err
  /-- `threading.BrokenBarrierError`. -/
  | brokenBarrier : Err
  /-- an exception raised by the store call (`self.query_items`). -/
  | clientError : String → Err
deriving DecidableEq, Repr

/-- Wire form of a continuation-token string.  `base64` and `zlib` are inverse
bijections on their ranges and `pickle.loads (pickle.dumps x) = x`, so the
composite codec of `base.py` is modelled by: a well-formed token is the
pickled image of a per-shard cursor map, and every other string is `corrupt`
(decoding it raises). -/
inductive TokenStr : Type where
  | pickled : PyDict Nat Cursor → TokenStr
  | corrupt : String → TokenStr
deriving DecidableEq, Repr

/-- `QueryMixin._decompress_exclusive_start_key` (base.py 167-170):
`pickle.loads(zlib.decompress(base64.b64decode(key)))`; a corrupted string
raises. -/
def decompress_exclusive_start_key : TokenStr → Except Err (PyDict Nat Cursor)
  | .pickled m => .ok m
  | .corrupt _ => .error .unpicklingError

/-- `QueryMixin._compress_last_evaluated_keys` (base.py 172-180): collect
`results.get(shard_id, {}).get("LastEvaluatedKey", {})` for every configured
shard id; return the empty string (modelled `Option.none`) when no cursor is
truthy, else pickle/compress/encode the full map. -/
def compress_last_evaluated_keys (shardIds : List Nat)
    (results : PyDict Nat ShardResult) : Option TokenStr :=
  let lastEvaluatedKeys : PyDict Nat Cursor :=
    shardIds.map (fun s => (s, (results.getD s ShardResult.empty).lastEvaluatedKey))
  if lastEvaluatedKeys.all (fun p => p.2.isEmpty) then Option.none
  else some (.pickled lastEvaluatedKeys)

/-- `Barrier.threaded_shell` (base.py 137-150) for one unit: store the `{}`
placeholder under the unit's id, run the shared callable catching any
exception into `errors`, then wait at the barrier; when the rendezvous broke
(`timedOut`) the unit's own `barrier.wait()` raises `BrokenBarrierError`,
which it records over any earlier entry for its id. -/
def threaded_shell {κ ρ : Type} (call : κ → Except Err ρ) (emptyRes : ρ)
    (timedOut : Bool) (st : PyDict Nat ρ × PyDict Nat Err) (id_ : Nat)
    (kwargs : κ) : PyDict Nat ρ × PyDict Nat Err :=
  let results := st.1.insert id_ emptyRes
  let afterCall :=
    match call kwargs with
    | .ok r => (results.insert id_ r, st.2)
    | .error e => (results, st.2.insert id_ e)
  if timedOut then (afterCall.1, afterCall.2.insert id_ .brokenBarrier)
  else afterCall

namespace Barrier

/-- The final contents of `self.results` / `self.errors` once every `Barrier`
unit has finished.  Each unit writes only under its own id, so the concurrent
execution is modelled by folding `threaded_shell` over the work items in
spawn order. -/
def finalState {κ ρ : Type} (call : κ → Except Err ρ) (emptyRes : ρ)
    (kwargsMapping : PyDict Nat κ) (timedOut : Bool) :
    PyDict Nat ρ × PyDict Nat Err :=
  kwargsMapping.foldl (fun st p => threaded_shell call emptyRes timedOut st p.1 p.2)
    ([], [])

/-- `Barrier.run` (base.py 152-163): spawn one thread per work item, then wait
at the barrier in the calling thread.  That outer `barrier.wait()` is not
wrapped in `try`/`except`, so when the rendezvous times out `run` raises
`BrokenBarrierError` instead of returning the result/error maps. -/
def run {κ ρ : Type} (call : κ → Except Err ρ) (emptyRes : ρ)
    (kwargsMapping : PyDict Nat κ) (timedOut : Bool) :
    Except Err (PyDict Nat ρ × PyDict Nat Err) :=
  if timedOut then .error .brokenBarrier
  else .ok (finalState call emptyRes kwargsMapping timedOut)

end Barrier

/-- `item[sort_key_name].split("#")[-1]`. -/
def suffixAfterHash (s : String) : String := (s.splitOn "#").getLastD s

/-- The merge-ordering key an item received in `_sort_by_and_add_priority`. -/
def prioVal (item : Item) : String :=
  match item.get? "priority" with
  | some (.str s) => s
  | _ => ""

/-- `QueryMixin._sort_by_and_add_priority` (base.py 188-195): when a sort-key
name is configured for the index and the item list is non-empty, set
`item["priority"]` to the substring of the sort-key attribute after the last
`#` (an item lacking the attribute raises `KeyError`, uncaught) and sort the
list by that string ascending; otherwise return the items unchanged. -/
def sort_by_and_add_priority (items : List Item) (sortKeyName : Option String) :
    Except Err (List Item) :=
  match sortKeyName, items with
  | some sk, _ :: _ => do
      let withPrio ← items.mapM (fun item =>
        match item.get? sk with
        | some (.str v) =>
            Except.ok (item.insert "priority" (.str (suffixAfterHash v)))
        | some _ => Except.error Err.attributeError
        | Option.none => Except.error (Err.keyErrorAttr sk))
      Except.ok (withPrio.mergeSort (fun a b => decide (prioVal a ≤ prioVal b)))
  | _, _ => .ok items

/-- `KeyConditionExpression`:
`sk_condition and pk_condition & sk_condition or pk_condition` (base.py 225),
where the partition-key condition is `Key("s_id").eq(str(shard_id))`.  The
boto3 condition objects are opaque; the caller-supplied sort-key condition is
kept as an abstract label. -/
inductive KeyCondExpr : Type where
  | pkEq : String → KeyCondExpr
  | pkAndSk : String → String → KeyCondExpr
deriving DecidableEq, Repr

/-- One entry of `kwargs_mapping` (base.py 223-227): the request dict passed
to `self.query_items` for one shard.  `Limit` and `ExclusiveStartKey` live
inside `additional_request_attributes` in the source; they are modelled as
fields, with the remaining pass-through attributes in `extra`. -/
structure ShardRequest where
  indexName : String
  keyConditionExpr : KeyCondExpr
  exclusiveStartKey : Option Cursor
  limit : Option Nat
  extra : PyDict String Val
deriving DecidableEq, Repr

/-- `math.ceil(int(limit) / len(shard_ids))` for natural numbers. -/
def ceilDiv (l n : Nat) : Nat := (l + n - 1) / n

/-- The request built for one shard (base.py 216-227).  `limit` is already the
ceil-divided per-shard limit. -/
def mkShardRequest (indexName : String) (skCondition : Option String)
    (limit : Option Nat) (extra : PyDict String Val) (shardId : Nat)
    (esk : Option Cursor) : ShardRequest :=
  { indexName := indexName
    keyConditionExpr :=
      match skCondition with
      | some sk => .pkAndSk (toString shardId) sk
      | Option.none => .pkEq (toString shardId)
    exclusiveStartKey := esk
    limit := limit
    extra := extra }

/-- The `kwargs_mapping` loop of `query_shards` (base.py 214-227).  With a
decoded token, `exclusive_start_keys[shard_id]` raises `KeyError` for a shard
id missing from the map, and a shard whose cursor is falsy (empty) is skipped
with `continue` — no request is built for it. -/
def build_kwargs_mapping (mk : Nat → Option Cursor → ShardRequest)
    (eskMap : Option (PyDict Nat Cursor)) :
    List Nat → Except Err (PyDict Nat ShardRequest)
  | [] => .ok []
  | s :: rest =>
    match eskMap with
    | Option.none => do
        let tail ← build_kwargs_mapping mk eskMap rest
        .ok ((s, mk s Option.none) :: tail)
    | some m =>
        match m.get? s with
        | Option.none => .error (.keyError s)
        | some esk =>
            if esk.isEmpty then build_kwargs_mapping mk eskMap rest
            else do
              let tail ← build_kwargs_mapping mk eskMap rest
              .ok ((s, mk s (some esk)) :: tail)

/-- Per-model configuration: `self.shard_ids` (e.g. `list(range(0, 3))` for
`ArticleTypeModel`) and `constants.INDEX_NAME_SORT_KEY_MAPPING`, which is
loaded from the configuration module. -/
structure FanoutConfig where
  shardIds : List Nat
  indexSortKeyMapping : PyDict String String
deriving DecidableEq, Repr

/-- The dict `query_shards` returns: `{"Items": ...}` plus a
`"LastEvaluatedKey"` entry when a non-empty token was produced. -/
structure MergedPage where
  items : List Item
  lastEvaluatedKey : Option TokenStr
deriving DecidableEq, Repr

/-- The token-decode step at the top of `query_shards` (base.py 207-209):
`Option.none` models an absent (or falsy empty-string) `ExclusiveStartKey`
attribute, in which case no decode happens; otherwise the token is decoded
and a decode failure propagates. -/
def decode_token_arg : Option TokenStr → Except Err (Option (PyDict Nat Cursor))
  | Option.none => .ok Option.none
  | some t =>
      match decompress_exclusive_start_key t with
      | .ok m => .ok (some m)
      | .error e => .error e

/-- `QueryMixin.query_shards` (base.py 197-237).  The store call
`self.query_items` is the oracle `queryItems` (its per-shard behaviour,
success or raised exception, is arbitrary), and `timedOut` is the outcome of
the barrier rendezvous.  `exclusiveStartKeyCoded = Option.none` covers both an
absent `ExclusiveStartKey` attribute and the falsy empty string; each
`.error` branch is an uncaught Python exception propagating to the caller. -/
def query_shards (cfg : FanoutConfig)
    (queryItems : ShardRequest → Except Err ShardResult) (indexName : String)
    (skCondition : Option String) (exclusiveStartKeyCoded : Option TokenStr)
    (limit : Option Nat) (extra : PyDict String Val) (timedOut : Bool) :
    Except Err MergedPage :=
  match decode_token_arg exclusiveStartKeyCoded with
  | .error e => .error e
  | .ok eskMap =>
    match build_kwargs_mapping
        (mkShardRequest indexName skCondition
          (limit.map (fun l => ceilDiv l cfg.shardIds.length)) extra)
        eskMap cfg.shardIds with
    | .error e => .error e
    | .ok kwargsMapping =>
      match Barrier.run queryItems ShardResult.empty kwargsMapping timedOut with
      | .error e => .error e
      | .ok st =>
        match sort_by_and_add_priority
            (st.1.foldl (fun acc p => acc ++ p.2.items) [])
            (cfg.indexSortKeyMapping.get? indexName) with
        | .error e => .error e
        | .ok sorted =>
            .ok { items := sorted
                  lastEvaluatedKey :=
                    compress_last_evaluated_keys cfg.shardIds st.1 }

/-- The shard ids for which `query_shards` issues a store request: the keys of
`kwargs_mapping` exactly as built at base.py 214-227 (after the same token
decode). -/
def query_shards_requests (cfg : FanoutConfig) (indexName : String)
    (skCondition : Option String) (exclusiveStartKeyCoded : Option TokenStr)
    (limit : Option Nat) (extra : PyDict String Val) :
    Except Err (List Nat) :=
  match decode_token_arg exclusiveStartKeyCoded with
  | .error e => .error e
  | .ok eskMap =>
    match build_kwargs_mapping
        (mkShardRequest indexName skCondition
          (limit.map (fun l => ceilDiv l cfg.shardIds.length)) extra)
        eskMap cfg.shardIds with
    | .error e => .error e
    | .ok kwargsMapping => .ok (kwargsMapping.keyList)

/-- One piece of a Python format string: literal text or a `{name}` hole.
`_format_template` only supports root-level names (no nested or dotted
expressions), which this grammar captures exactly. -/
inductive TmplPart : Type where
  | lit : String → TmplPart
  | var : String → TmplPart
deriving DecidableEq, Repr

/-- Python `str(value)` for the values a template hole can interpolate. -/
def Val.pyStr : Val → String
  | .str s => s
  | .nat n => toString n
  | .none => "None"

/-- `template.format(**data)` over the part list: `Option.none` is the
`KeyError` raised when a referenced attribute is absent from the data. -/
def formatParts (data : Entity) : List TmplPart → Option String
  | [] => some ""
  | .lit s :: rest => (formatParts data rest).map (fun r => s ++ r)
  | .var k :: rest =>
      match data.get? k with
      | Option.none => Option.none
      | some v => (formatParts data rest).map (fun r => v.pyStr ++ r)

/-- `IndexMapping._format_template` (base.py 106-121):
`template.format(**data) or EmptyValue()` under `except KeyError`.  The
result `Option.none` is `EmptyValue`, produced both on a `KeyError` and when
the formatted string is empty (falsy, so the `or` yields `EmptyValue()`). -/
def format_template (parts : List TmplPart) (data : Entity) : Option Val :=
  match formatParts data parts with
  | Option.none => Option.none
  | some s => if s = "" then Option.none else some (.str s)

/-- The template kinds `IndexMapping._value_from_template` dispatches on:
a `ShardIdTemplate` carrying its shard range, a format string, a callable
(whose raising any exception is `Except.error`), or any other object. -/
inductive Template : Type where
  | shardId : List Nat → Template
  | fmt : List TmplPart → Template
  | func : (Entity → Except Unit Val) → Template
  | otherKind : Template

/-- `ShardIdTemplate.random_shard_id` (base.py 60-65):
`str(random.choice(self._shard_range))`.  The random draw is supplied as an
oracle index; `% length` keeps it inside the (non-empty) range. -/
def random_shard_id (shardRange : List Nat) (draw : Nat) : String :=
  toString (shardRange.getD (draw % shardRange.length) 0)

/-- `IndexMapping._value_from_template` (base.py 94-104), with `Option.none`
playing `EmptyValue` (the key is then not set).  A `ShardIdTemplate` key
already on the entity is returned unchanged (`entity.get(index_key,
template.random_shard_id())`); a raising callable yields `EmptyValue`; any
other template kind returns Python `None`, which IS a value and gets set. -/
def value_from_template (rng : String → Nat) (indexKey : String) (t : Template)
    (entity : Entity) : Option Val :=
  match t with
  | .shardId r => some (entity.getD indexKey (.str (random_shard_id r (rng indexKey))))
  | .fmt parts => format_template parts entity
  | .func f =>
      match f entity with
      | .ok v => some v
      | .error _ => Option.none
  | .otherKind => some .none

/-- `IndexMapping.enrich_entity_with_index_keys` (base.py 77-83).  The source
deep-copies the input and mutates only the copy, so the operation is a pure
function of the entity; each template is evaluated against the progressively
enriched copy, in the order of `self.index_keys_map.items()`. -/
def enrich_entity_with_index_keys (rng : String → Nat)
    (indexKeysMap : List (String × Template)) (entity : Entity) : Entity :=
  indexKeysMap.foldl (fun acc p =>
    match value_from_template rng p.1 p.2 acc with
    | some v => acc.insert p.1 v
    | Option.none => acc) entity

/-- `IndexMapping.drop_index_keys_from_entity` (base.py 85-89): deep-copy,
then `pop` every configured index key. -/
def drop_index_keys_from_entity (indexKeysMap : List (String × Template))
    (entity : Entity) : Entity :=
  indexKeysMap.foldl (fun acc p => PyDict.erase acc p.1) entity

/-- An entity restricted to the attributes not named in the index-key map:
the right-hand side of the spec's enrich/drop inverse law. -/
def restrictToPublic (indexKeysMap : List (String × Template)) (e : Entity) :
    Entity :=
  e.filter (fun p => !(indexKeysMap.any (fun q => decide (q.1 = p.1))))

/-- Does the optional value hold the decimal string of a member of the shard
range (i.e. a value `str(random.choice(shard_range))` could have produced)? -/
def isShardIdOf (shardRange : List Nat) : Option Val → Bool
  | some (.str s) => shardRange.any (fun m => decide (toString m = s))
  | _ => false

theorem enrich_nil (rng : String → Nat) (e : Entity) :
    enrich_entity_with_index_keys rng [] e = e := rfl

theorem enrich_cons (rng : String → Nat) (p : String × Template)
    (rest : List (String × Template)) (e : Entity) :
    enrich_entity_with_index_keys rng (p :: rest) e =
      enrich_entity_with_index_keys rng rest
        (match value_from_template rng p.1 p.2 e with
         | some v => e.insert p.1 v
         | Option.none => e) := rfl

theorem enrich_append (rng : String → Nat) (l₁ l₂ : List (String × Template))
    (e : Entity) :
    enrich_entity_with_index_keys rng (l₁ ++ l₂) e =
      enrich_entity_with_index_keys rng l₂ (enrich_entity_with_index_keys rng l₁ e) := by
  unfold enrich_entity_with_index_keys
  exact List.foldl_append _ _ _ _

theorem drop_cons (p : String × Template) (rest : List (String × Template))
    (e : Entity) :
    drop_index_keys_from_entity (p :: rest) e =
      drop_index_keys_from_entity rest (PyDict.erase e p.1) := rfl

theorem enrich_get?_of_forall_ne (rng : String → Nat)
    (ikm : List (String × Template)) (e : Entity) (k : String)
    (h : ∀ p ∈ ikm, p.1 ≠ k) :
    (enrich_entity_with_index_keys rng ikm e).get? k = e.get? k := by
  induction ikm generalizing e with
  | nil => rfl
  | cons p rest ih =>
    have hp : p.1 ≠ k := h p (List.mem_cons_self p rest)
    have hrest : ∀ q ∈ rest, q.1 ≠ k := fun q hq => h q (List.mem_cons_of_mem p hq)
    rw [enrich_cons]
    cases hv : value_from_template rng p.1 p.2 e with
    | none => rw [ih _ hrest]
    | some v =>
        rw [ih _ hrest]
        exact PyDict.get?_insert_ne e p.1 k v (Ne.symm hp)

theorem drop_get?_of_forall_ne (ikm : List (String × Template)) (e : Entity)
    (k : String) (h : ∀ p ∈ ikm, p.1 ≠ k) :
    (drop_index_keys_from_entity ikm e).get? k = e.get? k := by
  induction ikm generalizing e with
  | nil => rfl
  | cons p rest ih =>
    have hp : p.1 ≠ k := h p (List.mem_cons_self p rest)
    have hrest : ∀ q ∈ rest, q.1 ≠ k := fun q hq => h q (List.mem_cons_of_mem p hq)
    rw [drop_cons, ih _ hrest]
    exact PyDict.get?_erase_ne e p.1 k (Ne.symm hp)

theorem drop_get?_of_mem (ikm : List (String × Template)) (e : Entity)
    (k : String) (h : ∃ p ∈ ikm, p.1 = k) :
    (drop_index_keys_from_entity ikm e).get? k = Option.none := by
  induction ikm generalizing e with
  | nil =>
    obtain ⟨p, hp, _⟩ := h
    exact absurd hp (List.not_mem_nil p)
  | cons p rest ih =>
    rw [drop_cons]
    by_cases hrest : ∃ q ∈ rest, q.1 = k
    · exact ih _ hrest
    · obtain ⟨q, hq, hqk⟩ := h
      rcases List.mem_cons.mp hq with hqp | hqr
      · subst hqp
        push_neg at hrest
        rw [drop_get?_of_forall_ne rest _ k hrest, hqk]
        exact PyDict.get?_erase_self e k
      · exact absurd ⟨q, hqr, hqk⟩ hrest

theorem restrict_get?_of_mem (ikm : List (String × Template)) (e : Entity)
    (k : String) (h : ∃ p ∈ ikm, p.1 = k) :
    (restrictToPublic ikm e).get? k = Option.none := by
  induction e with
  | nil => rfl
  | cons q rest ih =>
    unfold restrictToPublic at ih ⊢
    rw [List.filter_cons]
    by_cases hq : (!(ikm.any (fun r => decide (r.1 = q.1)))) = true
    · rw [if_pos hq, PyDict.get?_cons]
      by_cases hqk : q.1 = k
      · exfalso
        obtain ⟨p, hp, hpk⟩ := h
        have : ikm.any (fun r => decide (r.1 = q.1)) = true :=
          List.any_eq_true.mpr ⟨p, hp, decide_eq_true (by rw [hpk, hqk])⟩
        simp [this] at hq
      · rw [if_neg hqk]
        exact ih
    · rw [if_neg hq]
      exact ih

theorem restrict_get?_of_forall_ne (ikm : List (String × Template)) (e : Entity)
    (k : String) (h : ∀ p ∈ ikm, p.1 ≠ k) :
    (restrictToPublic ikm e).get? k = e.get? k := by
  induction e with
  | nil => rfl
  | cons q rest ih =>
    unfold restrictToPublic at ih ⊢
    rw [List.filter_cons]
    by_cases hq : (!(ikm.any (fun r => decide (r.1 = q.1)))) = true
    · rw [if_pos hq, PyDict.get?_cons, PyDict.get?_cons]
      by_cases hqk : q.1 = k
      · rw [if_pos hqk, if_pos hqk]
      · rw [if_neg hqk, if_neg hqk]
        exact ih
    · rw [if_neg hq, PyDict.get?_cons]
      by_cases hqk : q.1 = k
      · exfalso
        simp only [Bool.not_eq_true', Bool.not_eq_false] at hq
        obtain ⟨p, hp, hpq⟩ := List.any_eq_true.mp hq
        exact h p hp (by rw [of_decide_eq_true hpq, hqk])
      · rw [if_neg hqk]
        exact ih

/-- Lookup under the shard-id index key after one enrichment: the existing
value when the entity already carries the key, otherwise the string of the
random draw.  (`pre`/`post` are the other entries of `index_keys_map`.) -/
theorem enrich_shardId_get? (rng : String → Nat)
    (pre post : List (String × Template)) (shardRange : List Nat) (k : String)
    (e : Entity) (hpre : ∀ p ∈ pre, p.1 ≠ k) (hpost : ∀ p ∈ post, p.1 ≠ k) :
    (enrich_entity_with_index_keys rng
        (pre ++ (k, Template.shardId shardRange) :: post) e).get? k =
      some (e.getD k (.str (random_shard_id shardRange (rng k)))) := by
  rw [enrich_append, enrich_cons]
  have hpreval : (enrich_entity_with_index_keys rng pre e).get? k = e.get? k :=
    enrich_get?_of_forall_ne rng pre e k hpre
  simp only [value_from_template]
  rw [enrich_get?_of_forall_ne rng post _ k hpost]
  rw [PyDict.get?_insert_self]
  unfold PyDict.getD
  rw [hpreval]

/-- C8.  Enrich/drop inverse: for every logical entity `e`, every index-key
configuration and every random draw, dropping the index keys from the
enriched entity yields exactly `e` restricted to the attributes not named in
the index-key map (Python dict equality).  Both operations deep-copy their
input in the source, which is what lets them be modelled as pure functions of
the entity — the caller's dict is never mutated. -/
theorem enrich_drop_inverse (rng : String → Nat)
    (ikm : List (String × Template)) (e : Entity) :
    PyDict.eqD
      (drop_index_keys_from_entity ikm (enrich_entity_with_index_keys rng ikm e))
      (restrictToPublic ikm e) = true := by
  rw [PyDict.eqD_iff_forall_get?]
  intro k
  by_cases hk : ∃ p ∈ ikm, p.1 = k
  · rw [drop_get?_of_mem ikm _ k hk, restrict_get?_of_mem ikm e k hk]
  · push_neg at hk
    rw [drop_get?_of_forall_ne ikm _ k hk, enrich_get?_of_forall_ne rng ikm e k hk,
      restrict_get?_of_forall_ne ikm e k hk]

/-- C9.  Sticky shard assignment: an entity that already carries a value
under the shard-id index key keeps that exact value across arbitrarily many
repeated enrich calls (with arbitrary random draws each time); an entity
without the key receives the string of a fresh draw from the configured shard
range. -/
theorem sticky_shard_assignment (rngs : List (String → Nat))
    (rng : String → Nat) (pre post : List (String × Template))
    (shardRange : List Nat) (k : String) (v : Val) (e : Entity)
    (hpre : ∀ p ∈ pre, p.1 ≠ k) (hpost : ∀ p ∈ post, p.1 ≠ k) :
    (e.get? k = some v →
      (rngs.foldl (fun acc r =>
          enrich_entity_with_index_keys r
            (pre ++ (k, Template.shardId shardRange) :: post) acc) e).get? k =
        some v)
    ∧ (e.get? k = Option.none → shardRange ≠ [] →
      isShardIdOf shardRange
        ((enrich_entity_with_index_keys rng
            (pre ++ (k, Template.shardId shardRange) :: post) e).get? k) = true) := by
  constructor
  · intro hv
    induction rngs generalizing e with
    | nil => exact hv
    | cons r rest ih =>
      rw [List.foldl_cons]
      apply ih
      rw [enrich_shardId_get? r pre post shardRange k e hpre hpost]
      unfold PyDict.getD
      rw [hv]
      rfl
  · intro hnone hr
    rw [enrich_shardId_get? rng pre post shardRange k e hpre hpost]
    unfold PyDict.getD
    rw [hnone]
    unfold isShardIdOf random_shard_id
    apply List.any_eq_true.mpr
    have hlen : rng k % shardRange.length < shardRange.length :=
      Nat.mod_lt _ (List.length_pos.mpr hr)
    refine ⟨shardRange.getD (rng k % shardRange.length) 0, ?_, by simp⟩
    rw [List.getD_eq_getElem shardRange 0 hlen]
    exact List.getElem_mem hlen

/-- Fixed random draw used by concrete witnesses. -/
def rngZero : String → Nat := fun _ => 0

/-- Another fixed random draw used by concrete witnesses. -/
def rngOne : String → Nat := fun _ => 1

/-- Witness for C9 at a concrete input: `index_keys_map` is a single
`ShardIdTemplate` over range 0..2, the entity already carries `s_id = "2"`. -/
theorem sticky_shard_assignment_witness :
    (PyDict.get? [("s_id", Val.str "2")] "s_id" = some (Val.str "2") →
      ([rngZero, rngOne].foldl (fun acc r =>
          enrich_entity_with_index_keys r
            ([] ++ ("s_id", Template.shardId [0, 1, 2]) :: []) acc)
        [("s_id", Val.str "2")]).get? "s_id" = some (Val.str "2"))
    ∧ (PyDict.get? [("s_id", Val.str "2")] "s_id" = Option.none →
        [0, 1, 2] ≠ [] →
      isShardIdOf [0, 1, 2]
        ((enrich_entity_with_index_keys rngOne
            ([] ++ ("s_id", Template.shardId [0, 1, 2]) :: [])
            [("s_id", Val.str "2")]).get? "s_id") = true) :=
  sticky_shard_assignment [rngZero, rngOne] rngOne [] [] [0, 1, 2] "s_id"
    (Val.str "2") [("s_id", Val.str "2")] (by simp) (by simp)

/-- Index-key map used by the C10 counterexample: one format-template key. -/
def ikmFmtOnly : List (String × Template) := [("gsi_pk", Template.fmt [TmplPart.var "a"])]

/-- Entity for the C10 counterexample: it already carries the index key, and
its `a` attribute is the empty string, so the template formats to `""`. -/
def entityWithOldKey : Entity := [("gsi_pk", Val.str "old"), ("a", Val.str "")]

/-- C10 counterexample: the template `"{a}"` formats to the empty string on
`entityWithOldKey`, yet the enriched entity still carries `gsi_pk` (the value
deep-copied from the input), so the key is not omitted from the enriched
entity as the claim states. -/
theorem empty_format_key_retained :
    format_template [TmplPart.var "a"] entityWithOldKey = Option.none
    ∧ (enrich_entity_with_index_keys rngZero ikmFmtOnly entityWithOldKey).get?
        "gsi_pk" = some (Val.str "old") := by
  constructor <;> rfl

/-- C10 as amended: when the format template of index key `k` evaluates to
`EmptyValue` — because it formats to the empty string or because a referenced
attribute is absent, the two cases the source treats identically —
enrichment adds no binding for `k`: the enriched entity's binding at `k` is
exactly the input entity's (in particular the key is absent whenever the
input lacks it). -/
theorem empty_format_adds_no_binding (rng : String → Nat)
    (pre post : List (String × Template)) (k : String) (parts : List TmplPart)
    (e : Entity) (hpre : ∀ p ∈ pre, p.1 ≠ k) (hpost : ∀ p ∈ post, p.1 ≠ k)
    (hfmt : format_template parts (enrich_entity_with_index_keys rng pre e) =
      Option.none) :
    (enrich_entity_with_index_keys rng
        (pre ++ (k, Template.fmt parts) :: post) e).get? k = e.get? k := by
  rw [enrich_append, enrich_cons]
  simp only [value_from_template, hfmt]
  rw [enrich_get?_of_forall_ne rng post _ k hpost,
    enrich_get?_of_forall_ne rng pre e k hpre]

/-- Witness for the amended C10 at a concrete input: the entity lacks the
index key, the template formats to the empty string, and the enriched entity
still lacks the key. -/
theorem empty_format_adds_no_binding_witness :
    (enrich_entity_with_index_keys rngZero
        ([] ++ ("gsi_pk", Template.fmt [TmplPart.var "a"]) :: [])
        [("a", Val.str "")]).get? "gsi_pk" =
      PyDict.get? [("a", Val.str "")] "gsi_pk" :=
  empty_format_adds_no_binding rngZero [] [] "gsi_pk" [TmplPart.var "a"]
    [("a", Val.str "")] (by simp) (by simp) (by rfl)

/-- Wrap a per-shard cursor map as the `results` dict whose only content is
each shard's `LastEvaluatedKey` — the shape `_compress_last_evaluated_keys`
reads its cursors from. -/
def resultsOfCursors (M : PyDict Nat Cursor) : PyDict Nat ShardResult :=
  M.map (fun p => (p.1, ⟨[], p.2⟩))

/-- Encode a cursor map with `_compress_last_evaluated_keys` and decode the
resulting token string with `_decompress_exclusive_start_key` (`Option.none`
when encoding produced the empty string, i.e. no token). -/
def encode_then_decode (shardIds : List Nat) (M : PyDict Nat Cursor) :
    Option (PyDict Nat Cursor) :=
  match compress_last_evaluated_keys shardIds (resultsOfCursors M) with
  | some t => (decompress_exclusive_start_key t).toOption
  | Option.none => Option.none

theorem resultsOfCursors_get? (M : PyDict Nat Cursor) (s : Nat) :
    (resultsOfCursors M).get? s =
      (M.get? s).map (fun c => ShardResult.mk [] c) := by
  induction M with
  | nil => rfl
  | cons p rest ih =>
    unfold resultsOfCursors at ih ⊢
    rw [List.map_cons, PyDict.get?_cons, PyDict.get?_cons]
    by_cases hp : p.1 = s
    · rw [if_pos hp, if_pos hp]
      rfl
    · rw [if_neg hp, if_neg hp]
      exact ih

theorem resultsOfCursors_lek (M : PyDict Nat Cursor) (s : Nat) :
    ((resultsOfCursors M).getD s ShardResult.empty).lastEvaluatedKey =
      M.getD s [] := by
  unfold PyDict.getD
  rw [resultsOfCursors_get?]
  cases M.get? s with
  | none => rfl
  | some c => rfl

/-- C1.  Continuation-token round trip: for every per-shard cursor map `M`
whose keys are exactly the configured shard ids and in which at least one
cursor is non-empty, decoding the token produced by
`_compress_last_evaluated_keys` (over results carrying `M` as the per-shard
`LastEvaluatedKey`s) with `_decompress_exclusive_start_key` yields a map
Python-equal to `M`. -/
theorem token_round_trip (shardIds : List Nat) (M : PyDict Nat Cursor)
    (hsub : shardIds.all (fun s => M.containsKey s) = true)
    (hsup : M.keyList.all (fun k => decide (k ∈ shardIds)) = true)
    (hne : shardIds.any (fun s => !(M.getD s []).isEmpty) = true) :
    (encode_then_decode shardIds M).map (fun m => PyDict.eqD m M) = some true := by
  unfold encode_then_decode compress_last_evaluated_keys
  have hlek : shardIds.map
      (fun s => (s, ((resultsOfCursors M).getD s ShardResult.empty).lastEvaluatedKey)) =
      shardIds.map (fun s => (s, M.getD s [])) :=
    List.map_congr_left (fun s _ => by rw [resultsOfCursors_lek])
  have hallne : ((shardIds.map (fun s => (s, M.getD s []))).all
      (fun p => p.2.isEmpty)) = false := by
    obtain ⟨s₀, hs₀, hs₀ne⟩ := List.any_eq_true.mp hne
    apply Bool.eq_false_iff.mpr
    intro hall
    have := List.all_eq_true.mp hall (s₀, M.getD s₀ [])
      (List.mem_map.mpr ⟨s₀, hs₀, rfl⟩)
    rw [this] at hs₀ne
    exact Bool.noConfusion hs₀ne
  simp only [hlek, hallne, Bool.false_eq_true, if_false,
    decompress_exclusive_start_key, Except.toOption, Option.map_some']
  congr 1
  rw [PyDict.eqD_iff_forall_get?]
  intro k
  rw [PyDict.get?_map_pair]
  by_cases hk : k ∈ shardIds
  · rw [if_pos hk]
    have hc : M.containsKey k = true := List.all_eq_true.mp hsub k hk
    cases hg : M.get? k with
    | none =>
        unfold PyDict.containsKey at hc
        rw [hg] at hc
        exact Bool.noConfusion hc
    | some c =>
        unfold PyDict.getD
        rw [hg]
        rfl
  · rw [if_neg hk]
    cases hg : M.get? k with
    | none => rfl
    | some c =>
        exfalso
        have hmem := PyDict.mem_keyList_of_get?_eq_some hg
        have := of_decide_eq_true (List.all_eq_true.mp hsup k hmem)
        exact hk this

/-- Witness for C1 at a concrete input: two configured shards, shard 0 with a
non-empty cursor and shard 1 exhausted. -/
theorem token_round_trip_witness :
    ([0, 1].all (fun s =>
        PyDict.containsKey [(0, [("pk", Val.str "a")]), (1, ([] : Cursor))] s) = true)
    ∧ (PyDict.keyList [(0, [("pk", Val.str "a")]), (1, ([] : Cursor))]).all
        (fun k => decide (k ∈ [0, 1])) = true
    ∧ [0, 1].any (fun s =>
        !(PyDict.getD [(0, [("pk", Val.str "a")]), (1, ([] : Cursor))] s []).isEmpty) = true
    ∧ (encode_then_decode [0, 1] [(0, [("pk", Val.str "a")]), (1, ([] : Cursor))]).map
        (fun m => PyDict.eqD m [(0, [("pk", Val.str "a")]), (1, ([] : Cursor))]) =
      some true :=
  ⟨by decide, by decide, by decide,
    token_round_trip [0, 1] [(0, [("pk", Val.str "a")]), (1, ([] : Cursor))]
      (by decide) (by decide) (by decide)⟩

/-- The value a unit leaves in `self.results`: the callable's return value on
success, the `{}` placeholder stored at the top of `threaded_shell` when the
callable raised. -/
def execOutcome {κ ρ : Type} (call : κ → Except Err ρ) (emptyRes : ρ) (kw : κ) : ρ :=
  match call kw with
  | .ok r => r
  | .error _ => emptyRes

theorem foldl_threaded_shell {κ ρ : Type} (call : κ → Except Err ρ)
    (emptyRes : ρ) (kwl : PyDict Nat κ) (R : PyDict Nat ρ) (E : PyDict Nat Err)
    (hnd : kwl.keyList.Nodup)
    (hR : ∀ p ∈ kwl, R.containsKey p.1 = false)
    (hE : ∀ p ∈ kwl, E.containsKey p.1 = false) :
    kwl.foldl (fun st p => threaded_shell call emptyRes false st p.1 p.2) (R, E) =
      (R ++ kwl.map (fun p => (p.1, execOutcome call emptyRes p.2)),
       E ++ kwl.filterMap (fun p =>
         match call p.2 with
         | .error e => some (p.1, e)
         | .ok _ => Option.none)) := by
  induction kwl generalizing R E with
  | nil => simp
  | cons p rest ih =>
    have hndrest : (PyDict.keyList rest).Nodup := (List.nodup_cons.mp hnd).2
    have hfresh : p.1 ∉ PyDict.keyList rest := (List.nodup_cons.mp hnd).1
    have hRp : R.containsKey p.1 = false := hR p (List.mem_cons_self p rest)
    have hEp : E.containsKey p.1 = false := hE p (List.mem_cons_self p rest)
    have hne : ∀ q ∈ rest, q.1 ≠ p.1 := by
      intro q hq hqp
      exact hfresh (hqp ▸ List.mem_map_of_mem Prod.fst hq)
    have hcontA : ∀ {β : Type} (A : PyDict Nat β), (∀ q ∈ p :: rest, A.containsKey q.1 = false) →
        ∀ (x : β), ∀ q ∈ rest, PyDict.containsKey (A ++ [(p.1, x)]) q.1 = false := by
      intro β A hA x q hq
      unfold PyDict.containsKey
      rw [PyDict.get?_append]
      have h2 := hA q (List.mem_cons_of_mem p hq)
      unfold PyDict.containsKey at h2
      have h1 : A.get? q.1 = Option.none :=
        Option.not_isSome_iff_eq_none.mp (by rw [h2]; exact Bool.noConfusion)
      rw [h1]
      simp [PyDict.get?, Ne.symm (hne q hq)]
    have hcontR : ∀ q ∈ rest, R.containsKey q.1 = false :=
      fun q hq => hR q (List.mem_cons_of_mem p hq)
    have hcontE : ∀ q ∈ rest, E.containsKey q.1 = false :=
      fun q hq => hE q (List.mem_cons_of_mem p hq)
    rw [List.foldl_cons]
    cases hcall : call p.2 with
    | ok r =>
      have hstep : threaded_shell call emptyRes false (R, E) p.1 p.2 =
          (R ++ [(p.1, r)], E) := by
        simp only [threaded_shell, hcall]
        rw [PyDict.insert_fresh R p.1 emptyRes hRp,
          PyDict.insert_append_same R p.1 emptyRes r hRp]
        rfl
      rw [hstep, ih (R ++ [(p.1, r)]) E hndrest (hcontA R hR r) hcontE]
      simp only [List.map_cons, List.filterMap_cons, execOutcome, hcall,
        List.append_assoc, List.singleton_append]
    | error e =>
      have hstep : threaded_shell call emptyRes false (R, E) p.1 p.2 =
          (R ++ [(p.1, emptyRes)], E ++ [(p.1, e)]) := by
        simp only [threaded_shell, hcall]
        rw [PyDict.insert_fresh R p.1 emptyRes hRp,
          PyDict.insert_fresh E p.1 e hEp]
        rfl
      rw [hstep, ih (R ++ [(p.1, emptyRes)]) (E ++ [(p.1, e)]) hndrest
        (hcontA R hR emptyRes) (hcontA E hE e)]
      simp only [List.map_cons, List.filterMap_cons, execOutcome, hcall,
        List.append_assoc, List.singleton_append]

/-- The contents of `(results, errors)` after a `Barrier` run over work items
with distinct ids and a successful rendezvous: every unit's result is its own
call's value (the `{}` placeholder when it raised), and the errors dict holds
exactly the raising units' exceptions. -/
theorem finalState_eq_of_nodup {κ ρ : Type} (call : κ → Except Err ρ)
    (emptyRes : ρ) (kwl : PyDict Nat κ) (hnd : kwl.keyList.Nodup) :
    Barrier.finalState call emptyRes kwl false =
      (kwl.map (fun p => (p.1, execOutcome call emptyRes p.2)),
       kwl.filterMap (fun p =>
         match call p.2 with
         | .error e => some (p.1, e)
         | .ok _ => Option.none)) := by
  have := foldl_threaded_shell call emptyRes kwl [] [] hnd
    (fun p _ => rfl) (fun p _ => rfl)
  simpa [Barrier.finalState] using this

/-- A concrete shard request used by counterexamples and witnesses. -/
def reqShard0 : ShardRequest :=
  mkShardRequest "gsi" Option.none Option.none [] 0 Option.none

/-- A second concrete shard request used by witnesses. -/
def reqShard1 : ShardRequest :=
  mkShardRequest "gsi" Option.none Option.none [] 1 Option.none

/-- C4 counterexample: with a single work item whose call succeeds, a
rendezvous timeout makes `Barrier.run` raise `BrokenBarrierError` to the
caller — it does not return the `(results, errors)` pair with a timeout error
recorded for the pending unit, because the outer `barrier.wait()` in `run`
(base.py 161) is not wrapped in `try`/`except`. -/
theorem barrier_timeout_raises :
    Barrier.run (fun _ : ShardRequest => Except.ok ShardResult.empty)
      ShardResult.empty [(0, reqShard0)] true =
      Except.error Err.brokenBarrier := rfl

/-- C4 as amended: an exception inside one unit never aborts sibling units
and is recorded in the returned errors map rather than raised — when the
rendezvous succeeds, `run` returns the pair in which every unit's result
slot holds its own call's value (the `{}` placeholder for units that raised)
and the errors map holds exactly the raising units' exceptions.  When the
rendezvous times out, however, `run` raises `BrokenBarrierError` to the
caller instead of returning the maps (still-pending units record their own
broken-barrier error only in internal state that `run` never returns). -/
theorem barrier_error_containment {κ ρ : Type} (call : κ → Except Err ρ)
    (emptyRes : ρ) (kwl : PyDict Nat κ) (timedOut : Bool)
    (hnd : (PyDict.keyList kwl).Nodup) :
    (timedOut = false →
      Barrier.run call emptyRes kwl timedOut =
        .ok (kwl.map (fun p => (p.1, execOutcome call emptyRes p.2)),
             kwl.filterMap (fun p =>
               match call p.2 with
               | .error e => some (p.1, e)
               | .ok _ => Option.none)))
    ∧ (timedOut = true →
      Barrier.run call emptyRes kwl timedOut = .error .brokenBarrier) := by
  constructor
  · intro h
    subst h
    unfold Barrier.run
    rw [if_neg (by exact Bool.noConfusion)]
    rw [finalState_eq_of_nodup call emptyRes kwl hnd]
  · intro h
    subst h
    rfl

/-- Callable used by the C4 witness: the unit for shard 0 raises, the unit
for shard 1 succeeds. -/
def callMixed : ShardRequest → Except Err ShardResult := fun req =>
  if req.keyConditionExpr = KeyCondExpr.pkEq "0" then
    Except.error (Err.clientError "boom")
  else Except.ok ⟨[[("a", Val.str "x")]], []⟩

/-- Witness for C4 at a concrete input: two units, one raising and one
succeeding, with and without a rendezvous timeout. -/
theorem barrier_error_containment_witness :
    (false = false →
      Barrier.run callMixed ShardResult.empty [(0, reqShard0), (1, reqShard1)]
          false =
        .ok ([(0, reqShard0), (1, reqShard1)].map
              (fun p => (p.1, execOutcome callMixed ShardResult.empty p.2)),
            [(0, reqShard0), (1, reqShard1)].filterMap (fun p =>
              match callMixed p.2 with
              | .error e => some (p.1, e)
              | .ok _ => Option.none)))
    ∧ (false = true →
      Barrier.run callMixed ShardResult.empty [(0, reqShard0), (1, reqShard1)]
          false = .error .brokenBarrier) :=
  barrier_error_containment callMixed ShardResult.empty
    [(0, reqShard0), (1, reqShard1)] false (by decide)

/-- The request `query_shards` builds for shard `s` with exclusive start key
`esk`, given the call arguments (the per-shard limit is the ceil-divided
caller limit). -/
def shardRequestFor (cfg : FanoutConfig) (indexName : String)
    (skCondition : Option String) (limit : Option Nat)
    (extra : PyDict String Val) (s : Nat) (esk : Option Cursor) : ShardRequest :=
  mkShardRequest indexName skCondition
    (limit.map (fun l => ceilDiv l cfg.shardIds.length)) extra s esk

/-- `kwargs_mapping` on a first-page call (no continuation token): one
request per configured shard, none carrying an exclusive start key. -/
def firstPageKwargs (cfg : FanoutConfig) (indexName : String)
    (skCondition : Option String) (limit : Option Nat)
    (extra : PyDict String Val) : PyDict Nat ShardRequest :=
  cfg.shardIds.map (fun s =>
    (s, shardRequestFor cfg indexName skCondition limit extra s Option.none))

/-- `kwargs_mapping` on a token call whose decoded cursor map `m` covers the
shard set: shards whose cursor is empty are skipped. -/
def tokenKwargs (cfg : FanoutConfig) (indexName : String)
    (skCondition : Option String) (limit : Option Nat)
    (extra : PyDict String Val) (m : PyDict Nat Cursor) :
    PyDict Nat ShardRequest :=
  cfg.shardIds.filterMap (fun s =>
    match m.get? s with
    | some esk =>
        if esk.isEmpty then Option.none
        else some (s, shardRequestFor cfg indexName skCondition limit extra s (some esk))
    | Option.none => Option.none)

/-- The barrier `results` dict of a run in which every unit finished: each
shard's own outcome (the `{}` placeholder where the call raised). -/
def runResults (qi : ShardRequest → Except Err ShardResult)
    (kwl : PyDict Nat ShardRequest) : PyDict Nat ShardResult :=
  kwl.map (fun p => (p.1, execOutcome qi ShardResult.empty p.2))

/-- base.py 231-232: flatten `value.get("Items", [])` over `results.values()`
in insertion order. -/
def flattenResults (results : PyDict Nat ShardResult) : List Item :=
  results.foldl (fun acc p => acc ++ p.2.items) []

theorem build_kwargs_none_eq (mk : Nat → Option Cursor → ShardRequest)
    (l : List Nat) :
    build_kwargs_mapping mk Option.none l =
      .ok (l.map (fun s => (s, mk s Option.none))) := by
  induction l with
  | nil => rfl
  | cons s rest ih =>
    simp only [build_kwargs_mapping, ih, List.map_cons]
    rfl

theorem build_kwargs_covered_eq (mk : Nat → Option Cursor → ShardRequest)
    (m : PyDict Nat Cursor) (l : List Nat)
    (hcov : ∀ s ∈ l, (m.get? s).isSome = true) :
    build_kwargs_mapping mk (some m) l =
      .ok (l.filterMap (fun s =>
        match m.get? s with
        | some esk =>
            if esk.isEmpty then Option.none else some (s, mk s (some esk))
        | Option.none => Option.none)) := by
  induction l with
  | nil => rfl
  | cons s rest ih =>
    have hs := hcov s (List.mem_cons_self s rest)
    have ihr := ih (fun x hx => hcov x (List.mem_cons_of_mem s hx))
    cases hg : m.get? s with
    | none => rw [hg] at hs; exact Bool.noConfusion hs
    | some esk =>
        simp only [build_kwargs_mapping, hg, List.filterMap_cons, ihr]
        by_cases he : esk.isEmpty
        · rw [if_pos he, if_pos he]
        · rw [if_neg he, if_neg he]
          rfl

theorem build_kwargs_missing_errors (mk : Nat → Option Cursor → ShardRequest)
    (m : PyDict Nat Cursor) (l : List Nat) (s : Nat) (hs : s ∈ l)
    (hnone : m.get? s = Option.none) :
    ∃ s', build_kwargs_mapping mk (some m) l = .error (.keyError s') := by
  induction l with
  | nil => exact absurd hs (List.not_mem_nil s)
  | cons x rest ih =>
    cases hg : m.get? x with
    | none => exact ⟨x, by simp only [build_kwargs_mapping, hg]⟩
    | some esk =>
        have hsr : s ∈ rest := by
          rcases List.mem_cons.mp hs with h | h
          · subst h; rw [hg] at hnone; exact Option.noConfusion hnone
          · exact h
        obtain ⟨s', hs'⟩ := ih hsr
        refine ⟨s', ?_⟩
        simp only [build_kwargs_mapping, hg, hs']
        by_cases he : esk.isEmpty
        · rw [if_pos he]
        · rw [if_neg he]
          rfl

theorem keyList_map_pair {κ β : Type} (l : List κ) (f : κ → β) :
    PyDict.keyList (l.map (fun s => (s, f s))) = l := by
  unfold PyDict.keyList
  rw [List.map_map]
  exact List.map_id l

theorem nodup_keyList_filterMap {β : Type} (l : List Nat)
    (f : Nat → Option (Nat × β)) (hf : ∀ s p, f s = some p → p.1 = s)
    (hnd : l.Nodup) : (PyDict.keyList (l.filterMap f)).Nodup := by
  induction l with
  | nil => exact List.nodup_nil
  | cons s rest ih =>
    have hnds : s ∉ rest := (List.nodup_cons.mp hnd).1
    have hndr := ih (List.nodup_cons.mp hnd).2
    rw [List.filterMap_cons]
    cases hg : f s with
    | none => exact hndr
    | some p =>
        unfold PyDict.keyList at hndr ⊢
        rw [List.map_cons]
        apply List.nodup_cons.mpr
        refine ⟨?_, hndr⟩
        intro hmem
        obtain ⟨q, hq, hq1⟩ := List.mem_map.mp hmem
        obtain ⟨s', hs', hfs'⟩ := List.mem_filterMap.mp hq
        have hqs : q.1 = s' := hf s' q hfs'
        rw [hf s p hg] at hq1
        exact hnds (by rw [hq1.symm.trans hqs]; exact hs')

/-- `query_shards` on a first-page call (no token, rendezvous succeeds)
reduces to sorting the flattened per-shard outcomes and encoding their
cursors. -/
theorem query_shards_no_token_reduces (cfg : FanoutConfig)
    (qi : ShardRequest → Except Err ShardResult) (indexName : String)
    (skCondition : Option String) (limit : Option Nat)
    (extra : PyDict String Val) (hnd : cfg.shardIds.Nodup) :
    query_shards cfg qi indexName skCondition Option.none limit extra false =
      match sort_by_and_add_priority
          (flattenResults (runResults qi
            (firstPageKwargs cfg indexName skCondition limit extra)))
          (cfg.indexSortKeyMapping.get? indexName) with
      | .error e => .error e
      | .ok sorted =>
          .ok { items := sorted
                lastEvaluatedKey := compress_last_evaluated_keys cfg.shardIds
                  (runResults qi
                    (firstPageKwargs cfg indexName skCondition limit extra)) } := by
  unfold query_shards
  simp only [decode_token_arg, build_kwargs_none_eq, Barrier.run,
    Bool.false_eq_true, if_false]
  rw [finalState_eq_of_nodup qi ShardResult.empty _
    (by rw [keyList_map_pair]; exact hnd)]
  rfl

/-- `query_shards` on a token call whose decoded cursor map covers the shard
set (rendezvous succeeds) reduces to sorting the flattened outcomes of the
non-exhausted shards and encoding their cursors. -/
theorem query_shards_token_reduces (cfg : FanoutConfig)
    (qi : ShardRequest → Except Err ShardResult) (indexName : String)
    (skCondition : Option String) (limit : Option Nat)
    (extra : PyDict String Val) (m : PyDict Nat Cursor)
    (hnd : cfg.shardIds.Nodup)
    (hcov : ∀ s ∈ cfg.shardIds, (m.get? s).isSome = true) :
    query_shards cfg qi indexName skCondition (some (.pickled m)) limit extra
        false =
      match sort_by_and_add_priority
          (flattenResults (runResults qi
            (tokenKwargs cfg indexName skCondition limit extra m)))
          (cfg.indexSortKeyMapping.get? indexName) with
      | .error e => .error e
      | .ok sorted =>
          .ok { items := sorted
                lastEvaluatedKey := compress_last_evaluated_keys cfg.shardIds
                  (runResults qi
                    (tokenKwargs cfg indexName skCondition limit extra m)) } := by
  unfold query_shards
  simp only [decode_token_arg, decompress_exclusive_start_key,
    build_kwargs_covered_eq _ m _ hcov, Barrier.run, Bool.false_eq_true,
    if_false]
  rw [finalState_eq_of_nodup qi ShardResult.empty _
    (nodup_keyList_filterMap cfg.shardIds _ (fun s p hp => by
      cases hg : m.get? s with
      | none => rw [hg] at hp; exact Option.noConfusion hp
      | some esk =>
          rw [hg] at hp
          simp only [] at hp
          split at hp
          · exact Option.noConfusion hp
          · rw [← Option.some.inj hp]) hnd)]
  rfl

theorem exceptBind_ok {α β : Type} (a : α) (f : α → Except Err β) :
    (Except.ok a : Except Err α) >>= f = f a := rfl

theorem exceptBind_error {α β : Type} (e : Err) (f : α → Except Err β) :
    (Except.error e : Except Err α) >>= f = Except.error e := rfl

theorem sort_none (items : List Item) :
    sort_by_and_add_priority items Option.none = .ok items := by
  cases items <;> rfl

theorem sort_nil (o : Option String) :
    sort_by_and_add_priority [] o = .ok [] := by
  cases o <;> rfl

theorem mem_of_get?_eq_some {κ α : Type} [DecidableEq κ] {d : PyDict κ α}
    {k : κ} {v : α} (h : d.get? k = some v) : (k, v) ∈ d := by
  induction d with
  | nil => exact Option.noConfusion h
  | cons p rest ih =>
    rw [PyDict.get?_cons] at h
    by_cases hp : p.1 = k
    · rw [if_pos hp] at h
      have hv := Option.some.inj h
      have : (k, v) = p := by
        rw [← hp, ← hv]
      rw [this]
      exact List.mem_cons_self p rest
    · rw [if_neg hp] at h
      exact List.mem_cons_of_mem p (ih h)

theorem get?_map_keyed {κ β γ : Type} [DecidableEq κ] (d : PyDict κ β)
    (F : β → γ) (k : κ) :
    PyDict.get? (d.map (fun p => (p.1, F p.2))) k = (PyDict.get? d k).map F := by
  induction d with
  | nil => rfl
  | cons p rest ih =>
    rw [List.map_cons, PyDict.get?_cons, PyDict.get?_cons]
    by_cases hp : p.1 = k
    · rw [if_pos hp, if_pos hp]
      rfl
    · rw [if_neg hp, if_neg hp]
      exact ih

theorem runResults_get? (qi : ShardRequest → Except Err ShardResult)
    (kwl : PyDict Nat ShardRequest) (k : Nat) :
    (runResults qi kwl).get? k =
      (kwl.get? k).map (execOutcome qi ShardResult.empty) :=
  get?_map_keyed kwl (execOutcome qi ShardResult.empty) k

theorem get?_filterMap_keyed {β : Type} (l : List Nat)
    (f : Nat → Option (Nat × β)) (hf : ∀ s p, f s = some p → p.1 = s)
    (hnd : l.Nodup) (k : Nat) (hk : k ∈ l) :
    PyDict.get? (l.filterMap f) k = (f k).map Prod.snd := by
  induction l with
  | nil => exact absurd hk (List.not_mem_nil k)
  | cons s rest ih =>
    have hnds : s ∉ rest := (List.nodup_cons.mp hnd).1
    rw [List.filterMap_cons]
    by_cases hsk : s = k
    · subst hsk
      cases hg : f s with
      | none =>
          have hno : s ∉ PyDict.keyList (List.filterMap f rest) := by
            intro hmem
            obtain ⟨q, hq, hq1⟩ := List.mem_map.mp hmem
            obtain ⟨x, hx, hfx⟩ := List.mem_filterMap.mp hq
            exact hnds (by rw [← hq1, hf x q hfx]; exact hx)
          rw [PyDict.get?_eq_none_of_not_mem hno]
          rfl
      | some p =>
          rw [PyDict.get?_cons, if_pos (hf s p hg)]
          rfl
    · have hkr : k ∈ rest := by
        rcases List.mem_cons.mp hk with h | h
        · exact absurd h.symm hsk
        · exact h
      have ihr := ih (List.nodup_cons.mp hnd).2 hkr
      cases hg : f s with
      | none => exact ihr
      | some p =>
          rw [PyDict.get?_cons, if_neg (by rw [hf s p hg]; exact hsk)]
          exact ihr

/-- The cursor a token records for shard `s` (the empty cursor when there is
no token or the shard is absent from its map). -/
def cursorInToken (t : Option TokenStr) (s : Nat) : Cursor :=
  match t with
  | some (.pickled m) => m.getD s []
  | _ => []

/-- The shape function of `tokenKwargs`: what the filterMap produces per
shard id. -/
def tokenKwargsEntry (cfg : FanoutConfig) (indexName : String)
    (skCondition : Option String) (limit : Option Nat)
    (extra : PyDict String Val) (m : PyDict Nat Cursor) (s : Nat) :
    Option (Nat × ShardRequest) :=
  match m.get? s with
  | some esk =>
      if esk.isEmpty then Option.none
      else some (s, shardRequestFor cfg indexName skCondition limit extra s (some esk))
  | Option.none => Option.none

theorem tokenKwargs_eq_filterMap_entry (cfg : FanoutConfig) (indexName : String)
    (skCondition : Option String) (limit : Option Nat)
    (extra : PyDict String Val) (m : PyDict Nat Cursor) :
    tokenKwargs cfg indexName skCondition limit extra m =
      cfg.shardIds.filterMap
        (tokenKwargsEntry cfg indexName skCondition limit extra m) := rfl

theorem tokenKwargsEntry_key (cfg : FanoutConfig) (indexName : String)
    (skCondition : Option String) (limit : Option Nat)
    (extra : PyDict String Val) (m : PyDict Nat Cursor) :
    ∀ s p, tokenKwargsEntry cfg indexName skCondition limit extra m s = some p →
      p.1 = s := by
  intro s p hp
  unfold tokenKwargsEntry at hp
  cases hg : m.get? s with
  | none => rw [hg] at hp; exact Option.noConfusion hp
  | some esk =>
      rw [hg] at hp
      simp only [] at hp
      split at hp
      · exact Option.noConfusion hp
      · rw [← Option.some.inj hp]

theorem not_mem_tokenKwargs_of_empty (cfg : FanoutConfig) (indexName : String)
    (skCondition : Option String) (limit : Option Nat)
    (extra : PyDict String Val) (m : PyDict Nat Cursor) (s : Nat)
    (hs : m.get? s = some ([] : Cursor)) :
    s ∉ PyDict.keyList (tokenKwargs cfg indexName skCondition limit extra m) := by
  rw [tokenKwargs_eq_filterMap_entry]
  intro hmem
  obtain ⟨q, hq, hq1⟩ := List.mem_map.mp hmem
  obtain ⟨x, _, hfx⟩ := List.mem_filterMap.mp hq
  have hxq : q.1 = x := tokenKwargsEntry_key cfg indexName skCondition limit extra m x q hfx
  have hxs : x = s := by rw [← hxq, hq1]
  subst hxs
  unfold tokenKwargsEntry at hfx
  rw [hs] at hfx
  simp only [List.isEmpty_nil, if_true] at hfx
  exact Option.noConfusion hfx

theorem query_shards_requests_token_eq (cfg : FanoutConfig) (indexName : String)
    (skCondition : Option String) (limit : Option Nat)
    (extra : PyDict String Val) (m : PyDict Nat Cursor)
    (hcov : ∀ s ∈ cfg.shardIds, (m.get? s).isSome = true) :
    query_shards_requests cfg indexName skCondition (some (.pickled m)) limit
        extra =
      .ok (PyDict.keyList (tokenKwargs cfg indexName skCondition limit extra m)) := by
  unfold query_shards_requests
  simp only [decode_token_arg, decompress_exclusive_start_key,
    build_kwargs_covered_eq _ m _ hcov]
  rfl

theorem compress_all_empty (shardIds : List Nat)
    (results : PyDict Nat ShardResult)
    (h : ∀ s ∈ shardIds,
      ((results.getD s ShardResult.empty).lastEvaluatedKey).isEmpty = true) :
    compress_last_evaluated_keys shardIds results = Option.none := by
  unfold compress_last_evaluated_keys
  rw [if_pos]
  apply List.all_eq_true.mpr
  intro p hp
  obtain ⟨s, hs, hps⟩ := List.mem_map.mp hp
  rw [← hps]
  exact h s hs

theorem mapM_prio_errors (sk : String) (items : List Item)
    (hmiss : items.any (fun it => !(it.containsKey sk)) = true) :
    ∃ e, items.mapM (fun item =>
        match item.get? sk with
        | some (.str v) =>
            Except.ok (item.insert "priority" (.str (suffixAfterHash v)))
        | some _ => Except.error Err.attributeError
        | Option.none => Except.error (Err.keyErrorAttr sk)) =
      (Except.error e : Except Err (List Item)) := by
  induction items with
  | nil => exact absurd hmiss (by simp)
  | cons it rest ih =>
    rw [List.mapM_cons]
    cases hg : it.get? sk with
    | none =>
        refine ⟨.keyErrorAttr sk, ?_⟩
        simp only [hg, exceptBind_error]
    | some v =>
        cases v with
        | str s =>
            have hrest : rest.any (fun it => !(it.containsKey sk)) = true := by
              rcases List.any_eq_true.mp hmiss with ⟨x, hx, hxk⟩
              rcases List.mem_cons.mp hx with hxh | hxr
              · exfalso
                subst hxh
                unfold PyDict.containsKey at hxk
                rw [hg] at hxk
                exact Bool.noConfusion (Bool.not_eq_true' .. ▸ hxk : (true = false))
              · exact List.any_eq_true.mpr ⟨x, hxr, hxk⟩
            obtain ⟨e, he⟩ := ih hrest
            refine ⟨e, ?_⟩
            simp only [hg, exceptBind_ok, he, exceptBind_error]
        | nat n =>
            refine ⟨.attributeError, ?_⟩
            simp only [hg, exceptBind_error]
        | none =>
            refine ⟨.attributeError, ?_⟩
            simp only [hg, exceptBind_error]

theorem sort_missing_errors (sk : String) (items : List Item)
    (hmiss : items.any (fun it => !(it.containsKey sk)) = true) :
    ∃ e, sort_by_and_add_priority items (some sk) = .error e := by
  cases items with
  | nil => exact absurd hmiss (by simp)
  | cons it rest =>
    obtain ⟨e, he⟩ := mapM_prio_errors sk (it :: rest) hmiss
    refine ⟨e, ?_⟩
    simp only [sort_by_and_add_priority, he, exceptBind_error]

/-- One-shard configuration with no sort-key mapping, used by concrete runs. -/
def cfgOne : FanoutConfig := ⟨[0], []⟩

/-- Store oracle returning an item that still carries the `s_id` index key,
exactly as a DynamoDB query on the sharded GSI does. -/
def qiWithIndexKey : ShardRequest → Except Err ShardResult := fun _ =>
  .ok ⟨[[("s_id", Val.str "0"), ("articleType", Val.str "t")]], []⟩

/-- The index-key map `ArticleTypeModel` configures: a single
`ShardIdTemplate` under `s_id` over `SHARDS_RANGE_ARTICLE_TYPE`. -/
def ikmArticleType : List (String × Template) :=
  [("s_id", Template.shardId [0, 1, 2])]

/-- C3 counterexample: a `query_shards` call whose store returns an item
carrying the configured index key `s_id` hands that item to the caller with
`s_id` still present — `query_shards` never invokes the IndexMapping drop
operation (which, as the last conjunct shows, would have removed the key). -/
theorem query_shards_keeps_index_keys :
    query_shards cfgOne qiWithIndexKey "gsi" Option.none Option.none
        Option.none [] false =
      .ok ⟨[[("s_id", Val.str "0"), ("articleType", Val.str "t")]],
        Option.none⟩
    ∧ PyDict.containsKey
        [("s_id", Val.str "0"), ("articleType", Val.str "t")] "s_id" = true
    ∧ PyDict.containsKey
        (drop_index_keys_from_entity ikmArticleType
          [("s_id", Val.str "0"), ("articleType", Val.str "t")]) "s_id" =
        false :=
  ⟨rfl, by decide, by decide⟩

/-- C3 as amended: `query_shards` performs no index-key stripping.  On a
successful first-page call with no sort key configured for the index, the
merged page holds exactly the per-shard store items, unchanged (with a sort
key configured, each item would additionally gain a `priority` attribute);
index keys are removed only where a caller itself applies drop, as
`ArticleTypeModel.get` does on the single-entity path. -/
theorem query_shards_returns_items_unstripped (cfg : FanoutConfig)
    (qi : ShardRequest → Except Err ShardResult) (indexName : String)
    (skCondition : Option String) (limit : Option Nat)
    (extra : PyDict String Val) (hnd : cfg.shardIds.Nodup)
    (hnosort : cfg.indexSortKeyMapping.get? indexName = Option.none) :
    query_shards cfg qi indexName skCondition Option.none limit extra false =
      .ok { items := flattenResults (runResults qi
              (firstPageKwargs cfg indexName skCondition limit extra))
            lastEvaluatedKey := compress_last_evaluated_keys cfg.shardIds
              (runResults qi
                (firstPageKwargs cfg indexName skCondition limit extra)) } := by
  rw [query_shards_no_token_reduces cfg qi indexName skCondition limit extra
    hnd, hnosort, sort_none]

/-- Witness for the amended C3 at a concrete input. -/
theorem query_shards_returns_items_unstripped_witness :
    query_shards cfgOne qiWithIndexKey "gsi" Option.none Option.none
        Option.none [] false =
      .ok { items := flattenResults (runResults qiWithIndexKey
              (firstPageKwargs cfgOne "gsi" Option.none Option.none []))
            lastEvaluatedKey := compress_last_evaluated_keys cfgOne.shardIds
              (runResults qiWithIndexKey
                (firstPageKwargs cfgOne "gsi" Option.none Option.none [])) } :=
  query_shards_returns_items_unstripped cfgOne qiWithIndexKey "gsi"
    Option.none Option.none [] (by decide) rfl

/-- C7.  Exhaustion monotonicity: on a call with a continuation token whose
decoded map covers the shard set, a shard whose cursor is empty is issued no
request; and when every shard's cursor is empty, the call issues zero shard
requests and returns zero items with no continuation token. -/
theorem exhaustion_monotonicity (cfg : FanoutConfig)
    (qi : ShardRequest → Except Err ShardResult) (indexName : String)
    (skCondition : Option String) (limit : Option Nat)
    (extra : PyDict String Val) (m : PyDict Nat Cursor) (s : Nat)
    (hnd : cfg.shardIds.Nodup)
    (hcov : ∀ x ∈ cfg.shardIds, (m.get? x).isSome = true) :
    (m.get? s = some ([] : Cursor) →
      (query_shards_requests cfg indexName skCondition (some (.pickled m))
          limit extra).toOption.map (fun ids => decide (s ∈ ids)) =
        some false)
    ∧ (m.all (fun p => p.2.isEmpty) = true →
      query_shards_requests cfg indexName skCondition (some (.pickled m))
          limit extra = .ok []
      ∧ query_shards cfg qi indexName skCondition (some (.pickled m)) limit
          extra false = .ok ⟨[], Option.none⟩) := by
  constructor
  · intro hs
    rw [query_shards_requests_token_eq cfg indexName skCondition limit extra
      m hcov]
    simp only [Except.toOption, Option.map_some']
    congr 1
    exact decide_eq_false
      (not_mem_tokenKwargs_of_empty cfg indexName skCondition limit extra m s hs)
  · intro hall
    have hkw : tokenKwargs cfg indexName skCondition limit extra m = [] := by
      rw [tokenKwargs_eq_filterMap_entry]
      apply List.filterMap_eq_nil_iff.mpr
      intro x hx
      have hx' := hcov x hx
      cases hg : m.get? x with
      | none => rw [hg] at hx'; exact Bool.noConfusion hx'
      | some c =>
          have hc : (x, c) ∈ m := mem_of_get?_eq_some hg
          have hce : c.isEmpty = true := List.all_eq_true.mp hall (x, c) hc
          unfold tokenKwargsEntry
          simp only [hg, hce, if_true]
    constructor
    · rw [query_shards_requests_token_eq cfg indexName skCondition limit
        extra m hcov, hkw]
      rfl
    · rw [query_shards_token_reduces cfg qi indexName skCondition limit extra
        m hnd hcov, hkw]
      rw [compress_all_empty cfg.shardIds (runResults qi []) (fun x _ => rfl)]
      have h0 : flattenResults (runResults qi ([] : PyDict Nat ShardRequest)) =
          [] := rfl
      rw [h0, sort_nil]

/-- Two-shard configuration with no sort-key mapping, used by concrete runs. -/
def cfgTwoW : FanoutConfig := ⟨[0, 1], []⟩

/-- Witness for C7 at a concrete input: both shards exhausted. -/
theorem exhaustion_monotonicity_witness :
    (PyDict.get? [(0, ([] : Cursor)), (1, ([] : Cursor))] 0 =
        some ([] : Cursor) →
      (query_shards_requests cfgTwoW "gsi" Option.none
          (some (.pickled [(0, ([] : Cursor)), (1, ([] : Cursor))]))
          Option.none []).toOption.map (fun ids => decide (0 ∈ ids)) =
        some false)
    ∧ (([(0, ([] : Cursor)), (1, ([] : Cursor))] : PyDict Nat Cursor).all
          (fun p => p.2.isEmpty) = true →
      query_shards_requests cfgTwoW "gsi" Option.none
          (some (.pickled [(0, ([] : Cursor)), (1, ([] : Cursor))]))
          Option.none [] = .ok []
      ∧ query_shards cfgTwoW qiWithIndexKey "gsi" Option.none
          (some (.pickled [(0, ([] : Cursor)), (1, ([] : Cursor))]))
          Option.none [] false = .ok ⟨[], Option.none⟩) :=
  exhaustion_monotonicity cfgTwoW qiWithIndexKey "gsi" Option.none
    Option.none [] [(0, ([] : Cursor)), (1, ([] : Cursor))] 0 (by decide)
    (by decide)

/-- A non-empty cursor for shard 0 used in concrete runs. -/
def cursor0 : Cursor := [("pk", Val.str "a")]

/-- A non-empty cursor for shard 1 used in concrete runs. -/
def cursor1 : Cursor := [("pk", Val.str "b")]

/-- A non-empty cursor for shard 2 used in concrete runs. -/
def cursor2 : Cursor := [("pk", Val.str "c")]

/-- A results dict produced by a 3-shard deployment in which every shard has
further pages. -/
def threeShardResults : PyDict Nat ShardResult :=
  [(0, ⟨[], cursor0⟩), (1, ⟨[], cursor1⟩), (2, ⟨[], cursor2⟩)]

/-- The continuation token a 3-shard deployment emits for
`threeShardResults`. -/
def tokenFromThree : TokenStr :=
  .pickled [(0, cursor0), (1, cursor1), (2, cursor2)]

/-- Store oracle returning an empty page with no further cursor. -/
def qiEmptyOk : ShardRequest → Except Err ShardResult := fun _ => .ok ⟨[], []⟩

/-- C5 counterexample: a token genuinely produced by
`_compress_last_evaluated_keys` under a 3-shard ShardSet decodes without any
error under a 2-shard configuration, and `query_shards` runs to success on it
— no `MalformedToken` failure is raised for this differently-sized token. -/
theorem superset_token_accepted :
    compress_last_evaluated_keys [0, 1, 2] threeShardResults =
      some tokenFromThree
    ∧ decompress_exclusive_start_key tokenFromThree =
      .ok [(0, cursor0), (1, cursor1), (2, cursor2)]
    ∧ query_shards cfgTwoW qiEmptyOk "gsi" Option.none (some tokenFromThree)
        Option.none [] false = .ok ⟨[], Option.none⟩ :=
  ⟨by decide, rfl, rfl⟩

/-- C5 as amended: a corrupted token string makes the call raise the decode
error, fatal and surfaced to the caller; a token whose decoded map is missing
some configured shard id makes the call raise (`KeyError` during request
building), fatal and surfaced; but a token covering a superset of the
configured shard ids decodes successfully and the call proceeds normally —
and no dedicated `MalformedToken` exception type exists in the code, the
underlying library errors surface directly. -/
theorem malformed_token_handling (cfg : FanoutConfig)
    (qi : ShardRequest → Except Err ShardResult) (indexName : String)
    (skCondition : Option String) (limit : Option Nat)
    (extra : PyDict String Val) (cStr : String) (m : PyDict Nat Cursor)
    (s' : Nat) (timedOut : Bool) :
    (query_shards cfg qi indexName skCondition (some (.corrupt cStr)) limit
        extra timedOut = .error .unpicklingError)
    ∧ (s' ∈ cfg.shardIds → m.get? s' = Option.none →
      (query_shards cfg qi indexName skCondition (some (.pickled m)) limit
          extra timedOut).toOption = Option.none) := by
  constructor
  · rfl
  · intro hs hnone
    obtain ⟨s'', hs''⟩ := build_kwargs_missing_errors
      (mkShardRequest indexName skCondition
        (limit.map (fun l => ceilDiv l cfg.shardIds.length)) extra)
      m cfg.shardIds s' hs hnone
    unfold query_shards
    simp only [decode_token_arg, decompress_exclusive_start_key, hs'']
    rfl

/-- Witness for the amended C5 at a concrete input: a corrupted string, and a
token covering only shard 0 of a 2-shard configuration. -/
theorem malformed_token_handling_witness :
    (query_shards cfgTwoW qiEmptyOk "gsi" Option.none
        (some (.corrupt "garbage")) Option.none [] false =
      .error .unpicklingError)
    ∧ (1 ∈ cfgTwoW.shardIds →
      PyDict.get? [(0, cursor0)] 1 = Option.none →
      (query_shards cfgTwoW qiEmptyOk "gsi" Option.none
          (some (.pickled [(0, cursor0)])) Option.none [] false).toOption =
        Option.none) :=
  malformed_token_handling cfgTwoW qiEmptyOk "gsi" Option.none Option.none
    [] "garbage" [(0, cursor0)] 1 false

/-- Two-shard configuration whose index `gsi` has sort key `rk`. -/
def cfgSort : FanoutConfig := ⟨[0, 1], [("gsi", "rk")]⟩

/-- Store oracle: shard 0 returns an item carrying the sort-key attribute
`rk`, shard 1 returns an item lacking it. -/
def qiSortMixed : ShardRequest → Except Err ShardResult := fun req =>
  if req.keyConditionExpr = KeyCondExpr.pkEq "0" then
    .ok ⟨[[("rk", Val.str "channel#1")]], []⟩
  else .ok ⟨[[("other", Val.str "x")]], []⟩

/-- C6 counterexample: with a sort key configured, one shard returning an
item that lacks it makes the whole `query_shards` call raise `KeyError` —
the other shard's items (shard 0 did return a non-empty page, last conjunct)
are not returned, so the condition is fatal to the overall call rather than
only to that shard's outcome. -/
theorem missing_sort_key_aborts_call :
    query_shards cfgSort qiSortMixed "gsi" Option.none Option.none
        Option.none [] false = .error (Err.keyErrorAttr "rk")
    ∧ (execOutcome qiSortMixed ShardResult.empty
        (shardRequestFor cfgSort "gsi" Option.none Option.none [] 0
          Option.none)).items ≠ [] :=
  ⟨rfl, by decide⟩

/-- C6 as amended: when the index has a configured sort key and any item of
the flattened merged result lacks that attribute, the whole `query_shards`
call raises (the per-item `KeyError` in `_sort_by_and_add_priority` runs on
the already-merged list in the calling thread) — the call returns no items
from any shard and no aggregate error is recorded for the shard. -/
theorem missing_sort_key_fatal_to_call (cfg : FanoutConfig)
    (qi : ShardRequest → Except Err ShardResult) (indexName : String)
    (skCondition : Option String) (limit : Option Nat)
    (extra : PyDict String Val) (sk : String) (hnd : cfg.shardIds.Nodup)
    (hsort : cfg.indexSortKeyMapping.get? indexName = some sk)
    (hmiss : (flattenResults (runResults qi
        (firstPageKwargs cfg indexName skCondition limit extra))).any
        (fun it => !(it.containsKey sk)) = true) :
    (query_shards cfg qi indexName skCondition Option.none limit extra
        false).toOption = Option.none := by
  rw [query_shards_no_token_reduces cfg qi indexName skCondition limit extra
    hnd, hsort]
  obtain ⟨e, he⟩ := sort_missing_errors sk _ hmiss
  rw [he]
  rfl

/-- Witness for the amended C6 at a concrete input. -/
theorem missing_sort_key_fatal_to_call_witness :
    (query_shards cfgSort qiSortMixed "gsi" Option.none Option.none
        Option.none [] false).toOption = Option.none :=
  missing_sort_key_fatal_to_call cfgSort qiSortMixed "gsi" Option.none
    Option.none [] "rk" (by decide) rfl (by decide)

theorem compress_eq_some (shardIds : List Nat)
    (results : PyDict Nat ShardResult) (t : TokenStr)
    (h : compress_last_evaluated_keys shardIds results = some t) :
    t = .pickled (shardIds.map (fun s =>
      (s, (results.getD s ShardResult.empty).lastEvaluatedKey))) := by
  simp only [compress_last_evaluated_keys] at h
  split at h
  · exact Option.noConfusion h
  · exact (Option.some.inj h).symm

/-- Prior token of the C2 counterexample: both shards of the 2-shard
deployment have further pages. -/
def tokenPriorTwo : TokenStr := .pickled [(0, cursor0), (1, cursor1)]

/-- The item shard 1 returns in the C2 counterexample. -/
def itemB : Item := [("articleType", Val.str "b")]

/-- Store oracle: the shard-0 call raises, shard 1 succeeds with `itemB` and
a further cursor. -/
def qiFailShard0 : ShardRequest → Except Err ShardResult := fun req =>
  if req.keyConditionExpr = KeyCondExpr.pkEq "0" then
    .error (.clientError "boom")
  else .ok ⟨[itemB], cursor2⟩

/-- C2 counterexample: resuming from a token in which shard 0's cursor is the
non-empty `cursor0`, the shard-0 store call fails.  The call still succeeds
with shard 1's item, but the returned token records the EMPTY cursor for
shard 0 — not the prior `cursor0` carried forward — and a retry with that
token issues a request only to shard 1: the failed shard is treated as
exhausted rather than resumed from where it left off. -/
theorem failed_shard_cursor_not_carried :
    query_shards cfgTwoW qiFailShard0 "gsi" Option.none (some tokenPriorTwo)
        Option.none [] false =
      .ok ⟨[itemB], some (.pickled [(0, ([] : Cursor)), (1, cursor2)])⟩
    ∧ cursor0 ≠ ([] : Cursor)
    ∧ query_shards_requests cfgTwoW "gsi" Option.none
        (some (.pickled [(0, ([] : Cursor)), (1, cursor2)])) Option.none [] =
      .ok [1] :=
  ⟨rfl, by decide, rfl⟩

/-- C2 as amended: when one shard's store call fails on a token call (no sort
key configured, token covering the shard set, rendezvous on time), the
overall call still succeeds and that shard contributes no items (its result
slot is the `{}` placeholder), but the continuation token records the EMPTY
cursor for the failed shard rather than carrying its prior cursor forward —
so a retry with the returned token issues no request to that shard (it is
treated as exhausted, and its unread pages are skipped). -/
theorem failed_shard_cursor_reset (cfg : FanoutConfig)
    (qi : ShardRequest → Except Err ShardResult) (indexName : String)
    (skCondition : Option String) (limit : Option Nat)
    (extra : PyDict String Val) (m : PyDict Nat Cursor) (s : Nat) (e : Err)
    (hnd : cfg.shardIds.Nodup) (hs : s ∈ cfg.shardIds)
    (hcov : ∀ x ∈ cfg.shardIds, (m.get? x).isSome = true)
    (hne : (m.getD s []).isEmpty = false)
    (hfail : qi (shardRequestFor cfg indexName skCondition limit extra s
      (some (m.getD s []))) = .error e)
    (hnosort : cfg.indexSortKeyMapping.get? indexName = Option.none) :
    query_shards cfg qi indexName skCondition (some (.pickled m)) limit extra
        false =
      .ok { items := flattenResults (runResults qi
              (tokenKwargs cfg indexName skCondition limit extra m))
            lastEvaluatedKey := compress_last_evaluated_keys cfg.shardIds
              (runResults qi
                (tokenKwargs cfg indexName skCondition limit extra m)) }
    ∧ (runResults qi (tokenKwargs cfg indexName skCondition limit extra
        m)).get? s = some ShardResult.empty
    ∧ cursorInToken (compress_last_evaluated_keys cfg.shardIds
        (runResults qi (tokenKwargs cfg indexName skCondition limit extra m)))
        s = []
    ∧ (∀ t', compress_last_evaluated_keys cfg.shardIds
          (runResults qi (tokenKwargs cfg indexName skCondition limit extra
            m)) = some t' →
        (query_shards_requests cfg indexName skCondition (some t') limit
            extra).toOption.map (fun ids => decide (s ∈ ids)) = some false) := by
  obtain ⟨c, hc⟩ : ∃ c, m.get? s = some c := by
    have hx := hcov s hs
    cases hg : m.get? s with
    | none => rw [hg] at hx; exact Bool.noConfusion hx
    | some c => exact ⟨c, rfl⟩
  have hgd : m.getD s [] = c := by unfold PyDict.getD; rw [hc]; rfl
  rw [hgd] at hne hfail
  have hentry : tokenKwargsEntry cfg indexName skCondition limit extra m s =
      some (s, shardRequestFor cfg indexName skCondition limit extra s
        (some c)) := by
    unfold tokenKwargsEntry
    simp only [hc]
    rw [if_neg (by rw [hne]; exact Bool.noConfusion)]
  have hkget : (tokenKwargs cfg indexName skCondition limit extra m).get? s =
      some (shardRequestFor cfg indexName skCondition limit extra s
        (some c)) := by
    rw [tokenKwargs_eq_filterMap_entry,
      get?_filterMap_keyed cfg.shardIds _
        (tokenKwargsEntry_key cfg indexName skCondition limit extra m) hnd s
        hs, hentry]
    rfl
  have hres : (runResults qi
      (tokenKwargs cfg indexName skCondition limit extra m)).get? s =
      some ShardResult.empty := by
    rw [runResults_get?, hkget]
    simp only [Option.map_some', execOutcome, hfail]
  refine ⟨?_, hres, ?_, ?_⟩
  · rw [query_shards_token_reduces cfg qi indexName skCondition limit extra m
      hnd hcov, hnosort, sort_none]
  · cases hcmp : compress_last_evaluated_keys cfg.shardIds
        (runResults qi (tokenKwargs cfg indexName skCondition limit extra m))
      with
    | none => rfl
    | some t =>
        rw [compress_eq_some _ _ _ hcmp]
        simp only [cursorInToken]
        unfold PyDict.getD
        rw [PyDict.get?_map_pair, if_pos hs, hres]
        rfl
  · intro t' ht'
    rw [compress_eq_some _ _ _ ht']
    have hcov' : ∀ x ∈ cfg.shardIds,
        ((PyDict.get? (cfg.shardIds.map (fun y => (y,
          ((runResults qi (tokenKwargs cfg indexName skCondition limit extra
            m)).getD y ShardResult.empty).lastEvaluatedKey))) x).isSome) =
          true := by
      intro x hx
      rw [PyDict.get?_map_pair, if_pos hx]
      rfl
    rw [query_shards_requests_token_eq cfg indexName skCondition limit extra
      _ hcov']
    simp only [Except.toOption, Option.map_some']
    congr 1
    apply decide_eq_false
    apply not_mem_tokenKwargs_of_empty
    rw [PyDict.get?_map_pair, if_pos hs]
    unfold PyDict.getD
    rw [hres]
    rfl

/-- Witness for the amended C2 at the counterexample's concrete input. -/
theorem failed_shard_cursor_reset_witness :
    query_shards cfgTwoW qiFailShard0 "gsi" Option.none
        (some (.pickled [(0, cursor0), (1, cursor1)])) Option.none [] false =
      .ok { items := flattenResults (runResults qiFailShard0
              (tokenKwargs cfgTwoW "gsi" Option.none Option.none []
                [(0, cursor0), (1, cursor1)]))
            lastEvaluatedKey := compress_last_evaluated_keys cfgTwoW.shardIds
              (runResults qiFailShard0
                (tokenKwargs cfgTwoW "gsi" Option.none Option.none []
                  [(0, cursor0), (1, cursor1)])) }
    ∧ (runResults qiFailShard0 (tokenKwargs cfgTwoW "gsi" Option.none
        Option.none [] [(0, cursor0), (1, cursor1)])).get? 0 =
      some ShardResult.empty
    ∧ cursorInToken (compress_last_evaluated_keys cfgTwoW.shardIds
        (runResults qiFailShard0 (tokenKwargs cfgTwoW "gsi" Option.none
          Option.none [] [(0, cursor0), (1, cursor1)]))) 0 = []
    ∧ (∀ t', compress_last_evaluated_keys cfgTwoW.shardIds
          (runResults qiFailShard0 (tokenKwargs cfgTwoW "gsi" Option.none
            Option.none [] [(0, cursor0), (1, cursor1)])) = some t' →
        (query_shards_requests cfgTwoW "gsi" Option.none (some t')
            Option.none []).toOption.map (fun ids => decide (0 ∈ ids)) =
          some false) :=
  failed_shard_cursor_reset cfgTwoW qiFailShard0 "gsi" Option.none
    Option.none [] [(0, cursor0), (1, cursor1)] 0 (.clientError "boom")
    (by decide) (by decide) (by decide) (by decide) rfl rfl

end DdbModel
